import Mathlib

/-!
Verification of the DNS-filtering / network-policy reconciliation core of the
augmented-networkpolicy-operator repository, as a shallow embedding in Lean.

Embedding conventions:
* Go `net.IP` values are modeled by `IPAddr` (a bit width, 32 for IPv4 or 128
  for IPv6, together with the address bits as a natural number).
* Go `net.IPNet` values produced by `net.ParseCIDR` are modeled by `IPNet`
  (width, already-masked network bits, and the mask length).
* A Go `string` appearing in CIDR position is modeled by `CIDRString`: the
  outcome of `net.ParseCIDR` on it (an address/network pair, or a parse
  failure), plus a `key` that keeps distinct strings with the same outcome
  distinct.  String comparison and `sort.Strings` are modeled through the
  injective numeric encoding `CIDRString.code`.
* Stateful Go methods become explicit state-passing functions; prometheus
  counter increments and fallible calls become explicit components of the
  returned values.
-/

namespace ANPO

/-- An IP address: `width` is 32 (IPv4) or 128 (IPv6); `bits` are the address
bits.  Models the `net.IP` value returned by `net.ParseCIDR`. -/
structure IPAddr where
  width : Nat
  bits : Nat
deriving DecidableEq

/-- An IP network as returned by `net.ParseCIDR`: the network bits are already
masked, and the mask is the contiguous prefix of length `maskLen`. -/
structure IPNet where
  width : Nat
  bits : Nat
  maskLen : Nat
deriving DecidableEq

/-- `net.IPNet.Contains`: the address has the network's family and agrees with
the network on the first `maskLen` bits.  Addresses of a different width are
never contained (Go returns false on a length mismatch). -/
def IPNet.contains (n : IPNet) (a : IPAddr) : Bool :=
  a.width == n.width &&
    a.bits >>> (n.width - n.maskLen) == n.bits >>> (n.width - n.maskLen)

/-- A Go string in CIDR position, modeled by its `net.ParseCIDR` outcome.
`ok ip net key` is a string that parses to the address `ip` inside network
`net`; `bad key` is an unparseable string.  The `key` distinguishes distinct
strings that have the same parse outcome. -/
inductive CIDRString where
  | ok (ip : IPAddr) (net : IPNet) (key : Nat)
  | bad (key : Nat)
deriving DecidableEq

/-- `net.ParseCIDR` on the modeled string. -/
def parseCIDR : CIDRString → Option (IPAddr × IPNet)
  | .ok ip net _ => some (ip, net)
  | .bad _ => none

/-- Injective numeric encoding of a `CIDRString`, standing in for the string
itself when strings are compared (`sort.Strings`, `==`). -/
def CIDRString.code : CIDRString → Nat
  | .ok ip net k =>
      Nat.pair 0 (Nat.pair ip.width (Nat.pair ip.bits
        (Nat.pair net.width (Nat.pair net.bits (Nat.pair net.maskLen k)))))
  | .bad k => Nat.pair 1 k

theorem CIDRString.code_inj : ∀ {a b : CIDRString}, a.code = b.code → a = b := by
  intro a b h
  match a, b with
  | .ok ⟨iw, ib⟩ ⟨nw, nb, nm⟩ k, .ok ⟨iw2, ib2⟩ ⟨nw2, nb2, nm2⟩ k2 =>
    simp only [CIDRString.code, Nat.pair_eq_pair] at h
    obtain ⟨-, h2, h3, h4, h5, h6, h7⟩ := h
    subst h2; subst h3; subst h4; subst h5; subst h6; subst h7; rfl
  | .ok _ _ _, .bad _ =>
    simp only [CIDRString.code, Nat.pair_eq_pair] at h
    exact absurd h.1 (by decide)
  | .bad _, .ok _ _ _ =>
    simp only [CIDRString.code, Nat.pair_eq_pair] at h
    exact absurd h.1 (by decide)
  | .bad k, .bad k2 =>
    simp only [CIDRString.code, Nat.pair_eq_pair] at h
    simp [h.2]

/-- The total order on the modeled strings, standing in for lexicographic Go
string comparison (the claims settled below depend only on it being a total
order, not on which one). -/
def strLe (a b : CIDRString) : Prop := a.code ≤ b.code

instance : DecidableRel strLe := fun a b => by
  unfold strLe; infer_instance

instance : IsTotal CIDRString strLe :=
  ⟨fun a b => Nat.le_total a.code b.code⟩

instance : IsTrans CIDRString strLe :=
  ⟨fun _ _ _ hab hbc => Nat.le_trans hab hbc⟩

instance : IsAntisymm CIDRString strLe :=
  ⟨fun _ _ hab hba => CIDRString.code_inj (Nat.le_antisymm hab hba)⟩

instance : IsRefl CIDRString strLe :=
  ⟨fun a => Nat.le_refl a.code⟩

/-! ## The IP filter of `src/internal/dns/filter.go`

This is the variant with a static whitelist, a static blacklist and a
replaceable dynamic blacklist, which fails open on unparseable input. -/

/-- `IPFilter` from `src/internal/dns/filter.go`.  The `sync.RWMutex` guards
the dynamic blacklist in Go; in this sequential model the field is carried
directly. -/
structure IPFilter where
  whitelist : List IPNet
  staticBlacklist : List IPNet
  dynamicBlacklist : List IPNet
deriving DecidableEq

/-- `parseCIDRs`: parse every string, aborting with an error on the first
unparseable one (identical in `filter.go` and `src/unnamed/part_002`). -/
def parseCIDRs : List CIDRString → Except String (List IPNet)
  | [] => .ok []
  | c :: rest =>
    match parseCIDR c with
    | none => .error "parsing failed"
    | some (_, n) =>
      match parseCIDRs rest with
      | .error e => .error e
      | .ok ns => .ok (n :: ns)

/-- `NewIPFilter` from `src/internal/dns/filter.go`: construction fails if any
configured whitelist or blacklist CIDR string is unparseable; the dynamic
blacklist starts empty. -/
def NewIPFilter (wl bl : List CIDRString) : Except String IPFilter :=
  match parseCIDRs wl with
  | .error e => .error ("invalid whitelist CIDR: " ++ e)
  | .ok w =>
    match parseCIDRs bl with
    | .error e => .error ("invalid blacklist CIDR: " ++ e)
    | .ok b => .ok { whitelist := w, staticBlacklist := b, dynamicBlacklist := [] }

/-- `IPFilter.SetDynamicBlacklist` from `src/internal/dns/filter.go`, as a
state-passing function: on success the dynamic blacklist is replaced by the
parsed networks and no error is returned; on a parse failure the filter is
returned unchanged together with the error. -/
def IPFilter.SetDynamicBlacklist (f : IPFilter) (cidrs : List CIDRString) :
    IPFilter × Option String :=
  match parseCIDRs cidrs with
  | .error e => (f, some ("invalid dynamic blacklist CIDR: " ++ e))
  | .ok nets => ({ f with dynamicBlacklist := nets }, none)

/-- `IPFilter.IsAllowed` from `src/internal/dns/filter.go`: fail-open on
unparseable input; static blacklist, then dynamic blacklist, then (when the
whitelist is non-empty) whitelist membership. -/
def IPFilter.IsAllowed (f : IPFilter) (cidr : CIDRString) : Bool :=
  match parseCIDR cidr with
  | none => true
  | some (ip, _) =>
    if f.staticBlacklist.any (fun n => n.contains ip) then false
    else if f.dynamicBlacklist.any (fun n => n.contains ip) then false
    else if f.whitelist.length > 0 then
      f.whitelist.any (fun n => n.contains ip)
    else true

/-! ## The IP filter of `src/unnamed/part_002`

The other observed variant: no dynamic blacklist, and fail-closed on
unparseable input. -/

/-- `IPFilter` from `src/unnamed/part_002`. -/
structure IPFilterB where
  whitelist : List IPNet
  blacklist : List IPNet
deriving DecidableEq

/-- `NewIPFilter` from `src/unnamed/part_002`. -/
def NewIPFilterB (wl bl : List CIDRString) : Except String IPFilterB :=
  match parseCIDRs wl with
  | .error e => .error ("invalid whitelist CIDR: " ++ e)
  | .ok w =>
    match parseCIDRs bl with
    | .error e => .error ("invalid blacklist CIDR: " ++ e)
    | .ok b => .ok { whitelist := w, blacklist := b }

/-- `IPFilter.IsAllowed` from `src/unnamed/part_002`: fail-closed on
unparseable input; blacklist, then (when the whitelist is non-empty)
whitelist membership. -/
def IPFilterB.IsAllowed (f : IPFilterB) (cidr : CIDRString) : Bool :=
  match parseCIDR cidr with
  | none => false
  | some (ip, _) =>
    if f.blacklist.any (fun n => n.contains ip) then false
    else if f.whitelist.length > 0 then
      f.whitelist.any (fun n => n.contains ip)
    else true

/-! ## The filtering resolver of `src/unnamed/part_002`

`FilteringResolver.Resolve` wraps an inner resolver, filters its results
through the file's `IPFilter`, and performs per-hostname change detection
against a `lastSeen` map.  The inner call's outcome is passed in explicitly;
the map is explicit state; the two prometheus counter effects
(`dnsResolutionChangesTotal` and `ipFilteredTotal`) are returned as a flag and
a count. -/

/-- `copyAndSort` from `src/unnamed/part_002`: a sorted copy of the list
(`sort.Strings` on a copy); note that it does not deduplicate. -/
def copyAndSort (s : List CIDRString) : List CIDRString :=
  List.insertionSort strLe s

/-- `stringSlicesEqual` from `src/unnamed/part_002`: equal lengths, and the
first list compared elementwise against the sorted copy of the second. -/
def stringSlicesEqual (a b : List CIDRString) : Bool :=
  a.length == b.length && decide (a = copyAndSort b)

/-- Lookup in the modeled `lastSeen` Go map. -/
def lookupSeen : List (String × List CIDRString) → String → Option (List CIDRString)
  | [], _ => none
  | (k, v) :: rest, h => if k = h then some v else lookupSeen rest h

/-- Assignment `m[k] = v` in the modeled Go map. -/
def insertSeen : List (String × List CIDRString) → String → List CIDRString →
    List (String × List CIDRString)
  | [], h, v => [(h, v)]
  | (k, w) :: rest, h, v =>
    if k = h then (k, v) :: rest else (k, w) :: insertSeen rest h v

/-- The mutable state of a `FilteringResolver` from `src/unnamed/part_002`:
the per-hostname `lastSeen` map (a `nil` map and an empty map behave
identically here, so both are the empty list). -/
structure FilteringResolverState where
  lastSeen : List (String × List CIDRString)
deriving DecidableEq

/-- Everything one call of `FilteringResolver.Resolve` produces: the new
state, the returned value or error, whether `dnsResolutionChangesTotal` was
incremented for the hostname, and how many times `ipFilteredTotal` was
incremented. -/
structure ResolveResult where
  state : FilteringResolverState
  result : Except String (List CIDRString)
  changed : Bool
  filteredCount : Nat

/-- `FilteringResolver.Resolve` from `src/unnamed/part_002`.  `inner` is the
outcome of the inner resolver's call for `hostname`.  On an inner error the
error is returned and nothing else happens.  On success the results are
filtered through the file's `IPFilter`; a change event fires iff a previous
entry exists and `stringSlicesEqual` rejects it against the new list; the
stored entry is always replaced by `copyAndSort` of the new list. -/
def FilteringResolver.Resolve (filter : IPFilterB) (st : FilteringResolverState)
    (hostname : String) (inner : Except String (List CIDRString)) : ResolveResult :=
  match inner with
  | .error e => ⟨st, .error e, false, 0⟩
  | .ok cidrs =>
    let allowed := cidrs.filter (fun c => filter.IsAllowed c)
    let filteredCount := cidrs.countP (fun c => ! filter.IsAllowed c)
    let changed :=
      match lookupSeen st.lastSeen hostname with
      | some prev => ! stringSlicesEqual prev allowed
      | none => false
    ⟨⟨insertSeen st.lastSeen hostname (copyAndSort allowed)⟩, .ok allowed,
      changed, filteredCount⟩

/-! ## The pod-CIDR provider of `src/internal/dns/podcidr.go`

`PodCIDRProvider.refresh` lists the node inventory and installs the collected
pod CIDR ranges as the dynamic blacklist of the `filter.go` `IPFilter`.  The
listing outcome is passed in explicitly. -/

/-- The fields of `corev1.NodeSpec` read by the provider.  `podCIDR = none`
models the empty string. -/
structure NodeSpec where
  podCIDRs : List CIDRString
  podCIDR : Option CIDRString
deriving DecidableEq

/-- The per-node range selection inside `refresh`: prefer the multi-range
`PodCIDRs` list; fall back to the single `PodCIDR` field when the list is
empty and the field is non-empty. -/
def nodePodCIDRs (n : NodeSpec) : List CIDRString :=
  if n.podCIDRs.isEmpty then
    match n.podCIDR with
    | some c => [c]
    | none => []
  else n.podCIDRs

/-- The collection loop of `refresh`: gather every node's ranges in order,
keeping only the first occurrence of each CIDR (the `seen` map). -/
def collectCIDRs (nodes : List NodeSpec) : List CIDRString :=
  (nodes.flatMap nodePodCIDRs).foldl
    (fun acc c => if c ∈ acc then acc else acc ++ [c]) []

/-- `PodCIDRProvider.refresh` from `src/internal/dns/podcidr.go` as a function
on the filter state.  On a listing error the refresh is abandoned; otherwise
the collected CIDRs are installed via `SetDynamicBlacklist`, which itself
leaves the filter untouched when some collected CIDR fails to parse. -/
def PodCIDRProvider.refresh (f : IPFilter)
    (listResult : Except String (List NodeSpec)) : IPFilter :=
  match listResult with
  | .error _ => f
  | .ok nodes => (f.SetDynamicBlacklist (collectCIDRs nodes)).1

/-! ## The reconciler of `src/internal/controller/networkpolicy_controller.go`

The resolve/synthesize loop, the create-or-update step, and the status update
of `NetworkPolicyReconciler.Reconcile` are modeled as pure functions.  The
resolver is the outcome function of `r.Resolver.Resolve` per hostname; the
object store is explicit state. -/

/-- `intstr.IntOrString`. -/
inductive IntOrString where
  | int (v : Int)
  | str (s : String)
deriving DecidableEq

/-- `v1alpha1.NetworkPolicyPort` (the source policy's port entry). -/
structure ANPPort where
  protocol : Option String
  port : Option IntOrString
  endPort : Option Int
deriving DecidableEq

/-- `v1alpha1.EgressPeer`: a hostname destination. -/
structure EgressPeer where
  hostname : String
deriving DecidableEq

/-- `v1alpha1.EgressRule`: ports plus hostname destinations. -/
structure EgressRule where
  ports : List ANPPort
  toPeers : List EgressPeer
deriving DecidableEq

/-- The pod selector is an opaque matcher passed through unmodified; it is
modeled as an atom. -/
structure LabelSelector where
  tag : Nat
deriving DecidableEq

/-- `v1alpha1.NetworkPolicySpec` (the source policy spec).  The resolution
interval is a duration in seconds; `none` models an unset interval. -/
structure ANPSpec where
  podSelector : LabelSelector
  egress : List EgressRule
  policyTypes : List String
  resolutionInterval : Option Nat
deriving DecidableEq

/-- `networkingv1.NetworkPolicyPort` (the derived policy's port entry). -/
structure K8sPort where
  protocol : Option String
  port : Option IntOrString
  endPort : Option Int
deriving DecidableEq

/-- `networkingv1.IPBlock`. -/
structure IPBlock where
  cidr : CIDRString
deriving DecidableEq

/-- `networkingv1.NetworkPolicyPeer` as built by the reconciler: only the
`ipBlock` member is ever set. -/
structure K8sPeer where
  ipBlock : Option IPBlock
deriving DecidableEq

/-- `networkingv1.NetworkPolicyEgressRule`. -/
structure K8sEgressRule where
  ports : List K8sPort
  toPeers : List K8sPeer
deriving DecidableEq

/-- `networkingv1.NetworkPolicySpec` (the derived policy spec). -/
structure K8sSpec where
  podSelector : LabelSelector
  egress : List K8sEgressRule
  policyTypes : List String
deriving DecidableEq

/-- The port-conversion loop body: each field of the source port is copied
into the derived port. -/
def convertPort (p : ANPPort) : K8sPort :=
  { protocol := p.protocol, port := p.port, endPort := p.endPort }

/-- Map assignment `resolvedAddresses[hostname] = cidrs`. -/
def upsertResolved : List (String × List CIDRString) → String → List CIDRString →
    List (String × List CIDRString)
  | [], h, v => [(h, v)]
  | (k, w) :: rest, h, v =>
    if k = h then (k, v) :: rest else (k, w) :: upsertResolved rest h v

/-- Lookup in the modeled `resolvedAddresses` map. -/
def lookupResolved : List (String × List CIDRString) → String → Option (List CIDRString)
  | [], _ => none
  | (k, v) :: rest, h => if k = h then some v else lookupResolved rest h

/-- The per-hostname error message recorded on a resolution failure
(`fmt.Sprintf` with the hostname and the underlying error). -/
def resolveErrMsg (hostname e : String) : String :=
  "failed to resolve \"" ++ hostname ++ "\": " ++ e

/-- The accumulated outputs of the resolve/synthesize loop: the derived
egress rules, the `resolvedAddresses` map and the ordered resolution error
messages. -/
structure SynthResult where
  egress : List K8sEgressRule
  resolved : List (String × List CIDRString)
  errors : List String
deriving DecidableEq

/-- The inner loop over one rule's `to` entries: resolve each hostname; on
failure append an error message and continue; on success record the addresses
and append one `ipBlock` peer per address. -/
def resolvePeers (resolver : String → Except String (List CIDRString)) :
    List EgressPeer → List (String × List CIDRString) → List String → List K8sPeer →
    List K8sPeer × List (String × List CIDRString) × List String
  | [], resolved, errors, peers => (peers, resolved, errors)
  | peer :: rest, resolved, errors, peers =>
    match resolver peer.hostname with
    | .error e =>
      resolvePeers resolver rest resolved
        (errors ++ [resolveErrMsg peer.hostname e]) peers
    | .ok cidrs =>
      resolvePeers resolver rest (upsertResolved resolved peer.hostname cidrs) errors
        (peers ++ cidrs.map (fun c => ⟨some ⟨c⟩⟩))

/-- The outer loop over the egress rules, carrying the shared
`resolvedAddresses` and `resolutionErrors` accumulators. -/
def resolveRulesAux (resolver : String → Except String (List CIDRString)) :
    List EgressRule → List (String × List CIDRString) → List String →
    List K8sEgressRule → SynthResult
  | [], resolved, errors, egress => ⟨egress, resolved, errors⟩
  | rule :: rest, resolved, errors, egress =>
    match resolvePeers resolver rule.toPeers resolved errors [] with
    | (peers, resolved2, errors2) =>
      resolveRulesAux resolver rest resolved2 errors2
        (egress ++ [⟨rule.ports.map convertPort, peers⟩])

/-- The resolve/synthesize phase of `Reconcile` (loop over
`anp.Spec.Egress`). -/
def resolveRules (resolver : String → Except String (List CIDRString))
    (rules : List EgressRule) : SynthResult :=
  resolveRulesAux resolver rules [] [] []

/-- The desired derived `networkingv1.NetworkPolicySpec` built by
`Reconcile`: same pod selector and policy types, synthesized egress rules. -/
def desiredSpec (anp : ANPSpec)
    (resolver : String → Except String (List CIDRString)) : K8sSpec :=
  { podSelector := anp.podSelector,
    egress := (resolveRules resolver anp.egress).egress,
    policyTypes := anp.policyTypes }

/-- The outcome of the create-or-update step: the stored derived spec and the
two counter increments (`networkPolicyCreations`, `dnsNameChanges`). -/
structure ApplyOutcome where
  stored : Option K8sSpec
  created : Bool
  updated : Bool
deriving DecidableEq

/-- The create-or-update step of `Reconcile` on a store holding at most the
one derived object: create when absent, update when present with a different
spec, no write when unchanged. -/
def applyDerived (existing : Option K8sSpec) (desired : K8sSpec) : ApplyOutcome :=
  match existing with
  | none => ⟨some desired, true, false⟩
  | some ex => if ex = desired then ⟨some ex, false, false⟩ else ⟨some desired, false, true⟩

/-- `metav1.Condition` as used by the reconciler; times are abstract
instants. -/
structure Condition where
  type : String
  status : Bool
  reason : String
  message : String
  observedGeneration : Nat
  lastTransitionTime : Nat
deriving DecidableEq

/-- `setCondition` from `networkpolicy_controller.go`: replace the condition
with the same type, preserving its transition time when the status value is
unchanged; append when no condition of that type exists. -/
def setCondition : List Condition → Condition → List Condition
  | [], c => [c]
  | e :: rest, c =>
    if e.type = c.type then
      if e.status ≠ c.status then c :: rest
      else { c with lastTransitionTime := e.lastTransitionTime } :: rest
    else e :: setCondition rest c

/-- Find the condition of the given type (as the status readers do). -/
def getCondition : List Condition → String → Option Condition
  | [], _ => none
  | c :: rest, t => if c.type = t then some c else getCondition rest t

/-- The failure message of the Ready condition (`fmt.Sprintf` over the
collected resolution errors). -/
def resolutionFailedMsg (errors : List String) : String :=
  "failed to resolve some hostnames: [" ++ String.intercalate " " errors ++ "]"

/-- `v1alpha1.NetworkPolicyStatus`. -/
structure NPStatus where
  resolvedAddresses : List (String × List CIDRString)
  conditions : List Condition
deriving DecidableEq

/-- The status-update phase of `Reconcile`: build the Ready condition from
the collected resolution errors, replace the whole `resolvedAddresses` map by
this pass's map, and upsert the condition. -/
def updateStatus (status : NPStatus) (generation now : Nat)
    (resolved : List (String × List CIDRString)) (errors : List String) : NPStatus :=
  let condition : Condition :=
    if errors.length > 0 then
      { type := "Ready", status := false, reason := "ResolutionFailed",
        message := resolutionFailedMsg errors,
        observedGeneration := generation, lastTransitionTime := now }
    else
      { type := "Ready", status := true, reason := "Reconciled",
        message := "All hostnames resolved successfully",
        observedGeneration := generation, lastTransitionTime := now }
  { resolvedAddresses := resolved,
    conditions := setCondition status.conditions condition }

/-! ## Helper lemmas -/

/-- `IsAllowed` of `filter.go` on a parseable input, as one boolean
combination of the three membership tests. -/
theorem IPFilter.isAllowed_eq_of_parse (f : IPFilter) (a : CIDRString)
    (ip : IPAddr) (net : IPNet) (hparse : parseCIDR a = some (ip, net)) :
    f.IsAllowed a =
      (!(f.staticBlacklist ++ f.dynamicBlacklist).any (fun n => n.contains ip) &&
        ((f.whitelist.length == 0) || f.whitelist.any (fun n => n.contains ip))) := by
  unfold IPFilter.IsAllowed
  rw [hparse]
  by_cases hs : f.staticBlacklist.any (fun n => n.contains ip)
  · simp [hs, List.any_append]
  · by_cases hd : f.dynamicBlacklist.any (fun n => n.contains ip)
    · simp [hs, hd, List.any_append]
    · by_cases hw : f.whitelist.length > 0
      · have hne : f.whitelist.length ≠ 0 := Nat.pos_iff_ne_zero.1 hw
        simp [hs, hd, hw, List.any_append, hne]
      · have hz : f.whitelist.length = 0 := Nat.eq_zero_of_not_pos hw
        simp [hs, hd, hw, List.any_append, hz]

/-- When some string of the list is unparseable, `parseCIDRs` errors. -/
theorem parseCIDRs_error_of_bad :
    ∀ l : List CIDRString, (∃ c ∈ l, parseCIDR c = none) →
      ∃ e, parseCIDRs l = .error e := by
  intro l
  induction l with
  | nil => rintro ⟨c, hc, -⟩; simp at hc
  | cons c rest ih =>
    rintro ⟨d, hd, hbad⟩
    rcases List.mem_cons.1 hd with rfl | hd2
    · exact ⟨"parsing failed", by simp [parseCIDRs, hbad]⟩
    · unfold parseCIDRs
      cases hp : parseCIDR c with
      | none => exact ⟨"parsing failed", rfl⟩
      | some p =>
        obtain ⟨e, he⟩ := ih ⟨d, hd2, hbad⟩
        exact ⟨e, by simp [he]⟩

/-! ## Claims -/

/-- C1: for every parseable CIDR address, `IsAllowed` of
`src/internal/dns/filter.go` is false whenever the address matches a
static-or-dynamic blacklist entry regardless of the whitelist; with an empty
whitelist every non-blacklisted parseable address is allowed; with a
non-empty whitelist an address is allowed iff it matches some whitelist entry
and no blacklist entry. -/
theorem C1_isAllowed_cases (f : IPFilter) (a : CIDRString)
    (ip : IPAddr) (net : IPNet) (hparse : parseCIDR a = some (ip, net)) :
    ((∃ n ∈ f.staticBlacklist ++ f.dynamicBlacklist, n.contains ip = true) →
        f.IsAllowed a = false)
  ∧ (f.whitelist = [] →
      (∀ n ∈ f.staticBlacklist ++ f.dynamicBlacklist, n.contains ip = false) →
        f.IsAllowed a = true)
  ∧ (f.whitelist ≠ [] →
      (f.IsAllowed a = true ↔
        (∃ n ∈ f.whitelist, n.contains ip = true) ∧
          ∀ n ∈ f.staticBlacklist ++ f.dynamicBlacklist, n.contains ip = false)) := by
  rw [f.isAllowed_eq_of_parse a ip net hparse]
  refine ⟨?_, ?_, ?_⟩
  · intro hdeny
    have : (f.staticBlacklist ++ f.dynamicBlacklist).any (fun n => n.contains ip) = true :=
      List.any_eq_true.2 (by simpa using hdeny)
    simp [this]
  · intro hwl hnone
    have : (f.staticBlacklist ++ f.dynamicBlacklist).any (fun n => n.contains ip) = false :=
      List.any_eq_false.2 (by simpa using hnone)
    simp [this, hwl]
  · intro hwl
    have hwlen : (f.whitelist.length == 0) = false := by
      cases hl : f.whitelist with
      | nil => exact absurd hl hwl
      | cons x xs => simp [hl]
    constructor
    · intro h
      rw [Bool.and_eq_true] at h
      obtain ⟨ha, hb⟩ := h
      have hdeny : (f.staticBlacklist ++ f.dynamicBlacklist).any (fun n => n.contains ip) = false := by
        simpa using ha
      rw [hwlen] at hb
      have hmem : f.whitelist.any (fun n => n.contains ip) = true := by
        simpa using hb
      exact ⟨by simpa using List.any_eq_true.1 hmem, by simpa using List.any_eq_false.1 hdeny⟩
    · rintro ⟨⟨n, hn, hc⟩, hnone⟩
      have h1 : (f.staticBlacklist ++ f.dynamicBlacklist).any (fun n => n.contains ip) = false :=
        List.any_eq_false.2 (by simpa using hnone)
      have h2 : f.whitelist.any (fun n => n.contains ip) = true :=
        List.any_eq_true.2 ⟨n, hn, hc⟩
      simp [h1, h2]

/-- C1 witness: a filter with dynamic blacklist entry 5/32 denies the
parseable address 5; with empty whitelist, address 6 is allowed; with
whitelist entry 6/32 and the same blacklist, 6 is allowed and 5 is denied. -/
theorem C1_isAllowed_cases_witness :
    parseCIDR (.ok ⟨32, 5⟩ ⟨32, 5, 32⟩ 0) = some (⟨32, 5⟩, ⟨32, 5, 32⟩) ∧
    IPFilter.IsAllowed ⟨[], [], [⟨32, 5, 32⟩]⟩ (.ok ⟨32, 5⟩ ⟨32, 5, 32⟩ 0) = false ∧
    IPFilter.IsAllowed ⟨[], [], [⟨32, 5, 32⟩]⟩ (.ok ⟨32, 6⟩ ⟨32, 6, 32⟩ 0) = true ∧
    IPFilter.IsAllowed ⟨[⟨32, 6, 32⟩], [], [⟨32, 5, 32⟩]⟩ (.ok ⟨32, 6⟩ ⟨32, 6, 32⟩ 0) = true := by
  refine ⟨rfl, ?_, ?_, ?_⟩
  · exact (C1_isAllowed_cases ⟨[], [], [⟨32, 5, 32⟩]⟩ (.ok ⟨32, 5⟩ ⟨32, 5, 32⟩ 0)
      ⟨32, 5⟩ ⟨32, 5, 32⟩ rfl).1 ⟨⟨32, 5, 32⟩, by simp, by decide⟩
  · exact (C1_isAllowed_cases ⟨[], [], [⟨32, 5, 32⟩]⟩ (.ok ⟨32, 6⟩ ⟨32, 6, 32⟩ 0)
      ⟨32, 6⟩ ⟨32, 6, 32⟩ rfl).2.1 rfl (by intro n hn; simp at hn; subst hn; decide)
  · exact ((C1_isAllowed_cases ⟨[⟨32, 6, 32⟩], [], [⟨32, 5, 32⟩]⟩ (.ok ⟨32, 6⟩ ⟨32, 6, 32⟩ 0)
      ⟨32, 6⟩ ⟨32, 6, 32⟩ rfl).2.2 (by simp)).2
      ⟨⟨⟨32, 6, 32⟩, by simp, by decide⟩, by intro n hn; simp at hn; subst hn; decide⟩

/-- C2: the two observed `IsAllowed` variants, built from the same whitelist
and blacklist strings with an empty dynamic blacklist, agree on every input
that parses; on an unparseable input the `src/internal/dns/filter.go` variant
returns true (fail-open) while the `src/unnamed/part_002` variant returns
false (fail-closed), for every input and configuration. -/
theorem C2_variant_agreement (wl bl : List CIDRString) (f1 : IPFilter) (f2 : IPFilterB)
    (h1 : NewIPFilter wl bl = .ok f1) (h2 : NewIPFilterB wl bl = .ok f2)
    (a : CIDRString) :
    (parseCIDR a ≠ none → f1.IsAllowed a = f2.IsAllowed a)
  ∧ (parseCIDR a = none → f1.IsAllowed a = true ∧ f2.IsAllowed a = false) := by
  unfold NewIPFilter at h1
  unfold NewIPFilterB at h2
  cases hw : parseCIDRs wl with
  | error e => rw [hw] at h1; cases h1
  | ok w =>
    rw [hw] at h1 h2
    cases hb : parseCIDRs bl with
    | error e => rw [hb] at h1; cases h1
    | ok b =>
      rw [hb] at h1 h2
      cases h1; cases h2
      constructor
      · intro hp
        cases ha : parseCIDR a with
        | none => exact absurd ha hp
        | some p =>
          unfold IPFilter.IsAllowed IPFilterB.IsAllowed
          rw [ha]
          simp
      · intro hp
        unfold IPFilter.IsAllowed IPFilterB.IsAllowed
        rw [hp]
        exact ⟨rfl, rfl⟩

/-- C2 witness: from whitelist 6/32 and blacklist 5/32, the two variants
agree on the parseable address 6 and split true/false on an unparseable
input. -/
theorem C2_variant_agreement_witness :
    NewIPFilter [.ok ⟨32, 6⟩ ⟨32, 6, 32⟩ 0] [.ok ⟨32, 5⟩ ⟨32, 5, 32⟩ 1]
        = .ok ⟨[⟨32, 6, 32⟩], [⟨32, 5, 32⟩], []⟩
  ∧ NewIPFilterB [.ok ⟨32, 6⟩ ⟨32, 6, 32⟩ 0] [.ok ⟨32, 5⟩ ⟨32, 5, 32⟩ 1]
        = .ok ⟨[⟨32, 6, 32⟩], [⟨32, 5, 32⟩]⟩
  ∧ IPFilter.IsAllowed ⟨[⟨32, 6, 32⟩], [⟨32, 5, 32⟩], []⟩ (.ok ⟨32, 6⟩ ⟨32, 6, 32⟩ 0)
      = IPFilterB.IsAllowed ⟨[⟨32, 6, 32⟩], [⟨32, 5, 32⟩]⟩ (.ok ⟨32, 6⟩ ⟨32, 6, 32⟩ 0)
  ∧ IPFilter.IsAllowed ⟨[⟨32, 6, 32⟩], [⟨32, 5, 32⟩], []⟩ (.bad 7) = true
  ∧ IPFilterB.IsAllowed ⟨[⟨32, 6, 32⟩], [⟨32, 5, 32⟩]⟩ (.bad 7) = false := by
  have h := C2_variant_agreement [.ok ⟨32, 6⟩ ⟨32, 6, 32⟩ 0] [.ok ⟨32, 5⟩ ⟨32, 5, 32⟩ 1]
    ⟨[⟨32, 6, 32⟩], [⟨32, 5, 32⟩], []⟩ ⟨[⟨32, 6, 32⟩], [⟨32, 5, 32⟩]⟩ rfl rfl
  exact ⟨rfl, rfl, (h (.ok ⟨32, 6⟩ ⟨32, 6, 32⟩ 0)).1 (by simp [parseCIDR]),
    ((h (.bad 7)).2 rfl).1, ((h (.bad 7)).2 rfl).2⟩

/-- C3: `SetDynamicBlacklist` of `src/internal/dns/filter.go` replaces the
whole dynamic blacklist with exactly the parsed networks when every input
string parses (so it never merges, is idempotent on identical input, and an
empty input clears the set) and returns no error; when any string fails to
parse it returns a configuration error and leaves the dynamic blacklist
unchanged. -/
theorem C3_setDynamicBlacklist (f : IPFilter) (cidrs : List CIDRString) :
    (∀ nets, parseCIDRs cidrs = .ok nets →
        f.SetDynamicBlacklist cidrs = ({ f with dynamicBlacklist := nets }, none)
      ∧ ((f.SetDynamicBlacklist cidrs).1.SetDynamicBlacklist cidrs).1
          = (f.SetDynamicBlacklist cidrs).1)
  ∧ f.SetDynamicBlacklist [] = ({ f with dynamicBlacklist := [] }, none)
  ∧ ((∃ c ∈ cidrs, parseCIDR c = none) →
      (f.SetDynamicBlacklist cidrs).1 = f
      ∧ (f.SetDynamicBlacklist cidrs).2.isSome = true) := by
  refine ⟨?_, ?_, ?_⟩
  · intro nets hok
    unfold IPFilter.SetDynamicBlacklist
    rw [hok]
    exact ⟨rfl, rfl⟩
  · unfold IPFilter.SetDynamicBlacklist
    simp [parseCIDRs]
  · intro hbad
    obtain ⟨e, he⟩ := parseCIDRs_error_of_bad cidrs hbad
    unfold IPFilter.SetDynamicBlacklist
    rw [he]
    exact ⟨rfl, rfl⟩

/-- C3 witness: replacing with two parseable CIDRs installs exactly their
networks; replacing a non-empty dynamic blacklist with a list containing an
unparseable string errors and leaves the old set in place. -/
theorem C3_setDynamicBlacklist_witness :
    parseCIDRs [.ok ⟨32, 5⟩ ⟨32, 4, 31⟩ 0, .ok ⟨32, 9⟩ ⟨32, 9, 32⟩ 1]
        = .ok [⟨32, 4, 31⟩, ⟨32, 9, 32⟩]
  ∧ IPFilter.SetDynamicBlacklist ⟨[], [], [⟨32, 7, 32⟩]⟩
        [.ok ⟨32, 5⟩ ⟨32, 4, 31⟩ 0, .ok ⟨32, 9⟩ ⟨32, 9, 32⟩ 1]
      = (⟨[], [], [⟨32, 4, 31⟩, ⟨32, 9, 32⟩]⟩, none)
  ∧ (IPFilter.SetDynamicBlacklist ⟨[], [], [⟨32, 7, 32⟩]⟩ [.ok ⟨32, 5⟩ ⟨32, 4, 31⟩ 0, .bad 3]).1
      = ⟨[], [], [⟨32, 7, 32⟩]⟩
  ∧ (IPFilter.SetDynamicBlacklist ⟨[], [], [⟨32, 7, 32⟩]⟩
        [.ok ⟨32, 5⟩ ⟨32, 4, 31⟩ 0, .bad 3]).2.isSome = true := by
  have h1 := (C3_setDynamicBlacklist ⟨[], [], [⟨32, 7, 32⟩]⟩
    [.ok ⟨32, 5⟩ ⟨32, 4, 31⟩ 0, .ok ⟨32, 9⟩ ⟨32, 9, 32⟩ 1]).1
    [⟨32, 4, 31⟩, ⟨32, 9, 32⟩] rfl
  have h2 := (C3_setDynamicBlacklist ⟨[], [], [⟨32, 7, 32⟩]⟩
    [.ok ⟨32, 5⟩ ⟨32, 4, 31⟩ 0, .bad 3]).2.2
    ⟨.bad 3, by simp, rfl⟩
  exact ⟨rfl, h1.1, h2.1, h2.2⟩

/-- `copyAndSort` returns a permutation of its input. -/
theorem copyAndSort_perm (l : List CIDRString) : (copyAndSort l).Perm l :=
  List.perm_insertionSort strLe l

/-- `copyAndSort` returns a sorted list. -/
theorem copyAndSort_sorted (l : List CIDRString) : List.Sorted strLe (copyAndSort l) :=
  List.sorted_insertionSort strLe l

/-- On a sorted first argument, `stringSlicesEqual` decides multiset
equality. -/
theorem stringSlicesEqual_iff_perm (a b : List CIDRString)
    (ha : List.Sorted strLe a) :
    stringSlicesEqual a b = true ↔ a.Perm b := by
  unfold stringSlicesEqual
  constructor
  · intro h
    rw [Bool.and_eq_true] at h
    have h2 : a = copyAndSort b := of_decide_eq_true h.2
    rw [h2]
    exact copyAndSort_perm b
  · intro hp
    have hins : a = copyAndSort b :=
      List.eq_of_perm_of_sorted (hp.trans (copyAndSort_perm b).symm) ha
        (copyAndSort_sorted b)
    rw [Bool.and_eq_true]
    exact ⟨by simp [hp.length_eq], decide_eq_true hins⟩

/-- Looking up the key just inserted yields the inserted value. -/
theorem lookupSeen_insertSeen_self (m : List (String × List CIDRString))
    (h : String) (v : List CIDRString) :
    lookupSeen (insertSeen m h v) h = some v := by
  induction m with
  | nil => simp [insertSeen, lookupSeen]
  | cons kw rest ih =>
    obtain ⟨k, w⟩ := kw
    by_cases hk : k = h
    · simp [insertSeen, lookupSeen, hk]
    · simp [insertSeen, lookupSeen, hk, ih]

/-- Every entry of the map after an insertion is an old entry or carries the
inserted value. -/
theorem mem_insertSeen (m : List (String × List CIDRString)) (h : String)
    (v : List CIDRString) :
    ∀ p ∈ insertSeen m h v, p ∈ m ∨ p.2 = v := by
  induction m with
  | nil =>
    intro p hp
    simp [insertSeen] at hp
    right
    rw [hp]
  | cons kw rest ih =>
    obtain ⟨k, w⟩ := kw
    intro p hp
    by_cases hk : k = h
    · simp [insertSeen, hk] at hp
      rcases hp with rfl | hp2
      · right; rfl
      · left; exact List.mem_cons_of_mem _ hp2
    · simp only [insertSeen, if_neg hk, List.mem_cons] at hp
      rcases hp with rfl | hp2
      · left; exact List.mem_cons_self _ _
      · rcases ih p hp2 with hm | hv
        · left; exact List.mem_cons_of_mem _ hm
        · right; exact hv

/-- C10: when the inner resolver fails, `FilteringResolver.Resolve` of
`src/unnamed/part_002` returns that error and changes nothing: the `lastSeen`
map is untouched (so any stored baseline survives for the next successful
resolution), no change event fires and no filtered-address counter
increments. -/
theorem C10_resolve_error_no_effect (filter : IPFilterB)
    (st : FilteringResolverState) (hostname e : String) :
    FilteringResolver.Resolve filter st hostname (.error e)
        = ⟨st, .error e, false, 0⟩
  ∧ ∀ h : String,
      lookupSeen (FilteringResolver.Resolve filter st hostname (.error e)).state.lastSeen h
        = lookupSeen st.lastSeen h :=
  ⟨rfl, fun _ => rfl⟩

/-- C4 counterexample: with the baseline for "h" being one address and the
next resolution returning that same address twice, the two filtered results
are equal as sets, yet the second resolution emits a change event (the
comparison is length-sensitive). -/
theorem C4_change_event_cex :
    ((FilteringResolver.Resolve ⟨[], []⟩
        (FilteringResolver.Resolve ⟨[], []⟩ ⟨[]⟩ "h"
          (.ok [.ok ⟨32, 1⟩ ⟨32, 1, 32⟩ 0])).state
        "h" (.ok [.ok ⟨32, 1⟩ ⟨32, 1, 32⟩ 0, .ok ⟨32, 1⟩ ⟨32, 1, 32⟩ 0])).changed = true)
  ∧ (FilteringResolver.Resolve ⟨[], []⟩ ⟨[]⟩ "h"
        (.ok [.ok ⟨32, 1⟩ ⟨32, 1, 32⟩ 0])).changed = false
  ∧ ([CIDRString.ok ⟨32, 1⟩ ⟨32, 1, 32⟩ 0].toFinset
      = [CIDRString.ok ⟨32, 1⟩ ⟨32, 1, 32⟩ 0, CIDRString.ok ⟨32, 1⟩ ⟨32, 1, 32⟩ 0].toFinset) := by
  refine ⟨?_, ?_, ?_⟩ <;> decide

/-- C4 (amended): the first resolution of a hostname never emits a change
event; a later resolution emits a change event iff its filtered address list
differs from the previous filtered list as a multiset (order-insensitive but
duplicate-sensitive).  The sortedness hypothesis on the stored baseline is
the invariant established by every store (see the C5 theorem). -/
theorem C4_change_event_iff_perm (filter : IPFilterB)
    (st : FilteringResolverState) (hostname : String) (cidrs : List CIDRString) :
    (lookupSeen st.lastSeen hostname = none →
        (FilteringResolver.Resolve filter st hostname (.ok cidrs)).changed = false)
  ∧ (∀ prev, lookupSeen st.lastSeen hostname = some prev →
      List.Sorted strLe prev →
        ((FilteringResolver.Resolve filter st hostname (.ok cidrs)).changed = true ↔
          ¬ prev.Perm (cidrs.filter (fun c => filter.IsAllowed c)))) := by
  constructor
  · intro hnone
    unfold FilteringResolver.Resolve
    simp [hnone]
  · intro prev hprev hsorted
    unfold FilteringResolver.Resolve
    simp only [hprev]
    have hiff := stringSlicesEqual_iff_perm prev
      (cidrs.filter (fun c => filter.IsAllowed c)) hsorted
    cases hb : stringSlicesEqual prev (cidrs.filter (fun c => filter.IsAllowed c)) with
    | true => simp [hb, hiff.1 hb]
    | false =>
      simp only [hb, Bool.not_false, true_iff]
      intro hp
      rw [hiff.2 hp] at hb
      cases hb

/-- C4 witness: a first resolution emits no event; with baseline one address
and a resolution to a different single address the event fires. -/
theorem C4_change_event_iff_perm_witness :
    (FilteringResolver.Resolve ⟨[], []⟩ ⟨[]⟩ "h"
        (.ok [.ok ⟨32, 1⟩ ⟨32, 1, 32⟩ 0])).changed = false
  ∧ (FilteringResolver.Resolve ⟨[], []⟩ ⟨[("h", [.ok ⟨32, 1⟩ ⟨32, 1, 32⟩ 0])]⟩ "h"
        (.ok [.ok ⟨32, 2⟩ ⟨32, 2, 32⟩ 0])).changed = true := by
  constructor
  · exact (C4_change_event_iff_perm ⟨[], []⟩ ⟨[]⟩ "h"
      [.ok ⟨32, 1⟩ ⟨32, 1, 32⟩ 0]).1 rfl
  · exact ((C4_change_event_iff_perm ⟨[], []⟩ ⟨[("h", [.ok ⟨32, 1⟩ ⟨32, 1, 32⟩ 0])]⟩ "h"
      [.ok ⟨32, 2⟩ ⟨32, 2, 32⟩ 0]).2 [.ok ⟨32, 1⟩ ⟨32, 1, 32⟩ 0] rfl
      (by simp)).2 (by decide)

/-- C5 counterexample: resolving a hostname whose filtered list contains a
duplicate stores the duplicate: the baseline is sorted but not deduplicated,
contradicting the claimed sorted-and-deduplicated normal form. -/
theorem C5_baseline_cex :
    lookupSeen (FilteringResolver.Resolve ⟨[], []⟩ ⟨[]⟩ "h"
        (.ok [.ok ⟨32, 1⟩ ⟨32, 1, 32⟩ 0, .ok ⟨32, 1⟩ ⟨32, 1, 32⟩ 0])).state.lastSeen "h"
      = some [.ok ⟨32, 1⟩ ⟨32, 1, 32⟩ 0, .ok ⟨32, 1⟩ ⟨32, 1, 32⟩ 0]
  ∧ [CIDRString.ok ⟨32, 1⟩ ⟨32, 1, 32⟩ 0, CIDRString.ok ⟨32, 1⟩ ⟨32, 1, 32⟩ 0].dedup
      = [CIDRString.ok ⟨32, 1⟩ ⟨32, 1, 32⟩ 0]
  ∧ [CIDRString.ok ⟨32, 1⟩ ⟨32, 1, 32⟩ 0, CIDRString.ok ⟨32, 1⟩ ⟨32, 1, 32⟩ 0]
      ≠ [CIDRString.ok ⟨32, 1⟩ ⟨32, 1, 32⟩ 0] := by
  refine ⟨?_, ?_, ?_⟩ <;> decide

/-- C5 (amended): after every successful resolution the stored baseline is a
sorted copy of the current filtered list (duplicates preserved), whether or
not a change event fired; hence every entry of the `lastSeen` map is sorted
after any sequence of operations. -/
theorem C5_baseline_sorted_copy (filter : IPFilterB)
    (st : FilteringResolverState) (hostname : String) (cidrs : List CIDRString) :
    (lookupSeen (FilteringResolver.Resolve filter st hostname (.ok cidrs)).state.lastSeen hostname
        = some (copyAndSort (cidrs.filter (fun c => filter.IsAllowed c))))
  ∧ (copyAndSort (cidrs.filter (fun c => filter.IsAllowed c))).Perm
      (cidrs.filter (fun c => filter.IsAllowed c))
  ∧ ((∀ p ∈ st.lastSeen, List.Sorted strLe p.2) →
      ∀ p ∈ (FilteringResolver.Resolve filter st hostname (.ok cidrs)).state.lastSeen,
        List.Sorted strLe p.2) := by
  refine ⟨?_, copyAndSort_perm _, ?_⟩
  · unfold FilteringResolver.Resolve
    exact lookupSeen_insertSeen_self st.lastSeen hostname _
  · intro hall p hp
    unfold FilteringResolver.Resolve at hp
    rcases mem_insertSeen st.lastSeen hostname _ p hp with hm | hv
    · exact hall p hm
    · rw [hv]
      exact copyAndSort_sorted _

/-- C5 witness: resolving an unsorted two-address result stores its sorted
copy, and the sortedness invariant holds on the resulting map. -/
theorem C5_baseline_sorted_copy_witness :
    lookupSeen (FilteringResolver.Resolve ⟨[], []⟩ ⟨[]⟩ "h"
        (.ok [.ok ⟨32, 2⟩ ⟨32, 2, 32⟩ 0, .ok ⟨32, 1⟩ ⟨32, 1, 32⟩ 0])).state.lastSeen "h"
      = some (copyAndSort [.ok ⟨32, 2⟩ ⟨32, 2, 32⟩ 0, .ok ⟨32, 1⟩ ⟨32, 1, 32⟩ 0])
  ∧ ∀ p ∈ (FilteringResolver.Resolve ⟨[], []⟩ ⟨[]⟩ "h"
        (.ok [.ok ⟨32, 2⟩ ⟨32, 2, 32⟩ 0, .ok ⟨32, 1⟩ ⟨32, 1, 32⟩ 0])).state.lastSeen,
      List.Sorted strLe p.2 := by
  have h := C5_baseline_sorted_copy ⟨[], []⟩ ⟨[]⟩ "h"
    [.ok ⟨32, 2⟩ ⟨32, 2, 32⟩ 0, .ok ⟨32, 1⟩ ⟨32, 1, 32⟩ 0]
  exact ⟨h.1, h.2.2 (by intro p hp; simp at hp)⟩

/-- The first-seen dedup fold keeps the list duplicate-free. -/
theorem foldl_dedup_nodup :
    ∀ (l acc : List CIDRString), acc.Nodup →
      (l.foldl (fun acc c => if c ∈ acc then acc else acc ++ [c]) acc).Nodup := by
  intro l
  induction l with
  | nil => intro acc h; exact h
  | cons x rest ih =>
    intro acc h
    simp only [List.foldl_cons]
    by_cases hx : x ∈ acc
    · rw [if_pos hx]; exact ih acc h
    · rw [if_neg hx]
      refine ih _ ?_
      rw [List.nodup_append]
      exact ⟨h, List.nodup_singleton x, by simpa using hx⟩

/-- Membership after the first-seen dedup fold: an element is in the result
iff it was in the accumulator or in the input. -/
theorem foldl_dedup_mem :
    ∀ (l acc : List CIDRString) (c : CIDRString),
      c ∈ l.foldl (fun acc c => if c ∈ acc then acc else acc ++ [c]) acc ↔
        c ∈ acc ∨ c ∈ l := by
  intro l
  induction l with
  | nil => intro acc c; simp
  | cons x rest ih =>
    intro acc c
    simp only [List.foldl_cons]
    by_cases hx : x ∈ acc
    · rw [if_pos hx, ih]
      constructor
      · rintro (h | h)
        · exact Or.inl h
        · exact Or.inr (List.mem_cons_of_mem _ h)
      · rintro (h | h)
        · exact Or.inl h
        · rcases List.mem_cons.1 h with rfl | h2
          · exact Or.inl hx
          · exact Or.inr h2
    · rw [if_neg hx, ih]
      simp only [List.mem_append, List.mem_singleton, List.mem_cons]
      tauto

/-- C6 counterexample: a successful listing of one node whose single-range
CIDR field is unparseable leaves the previously installed dynamic blacklist
(here the network 7/32) in place instead of installing the node's collected
range list. -/
theorem C6_refresh_cex :
    PodCIDRProvider.refresh ⟨[], [], [⟨32, 7, 32⟩]⟩
        (.ok [{ podCIDRs := [], podCIDR := some (.bad 0) }])
      = ⟨[], [], [⟨32, 7, 32⟩]⟩
  ∧ collectCIDRs [{ podCIDRs := [], podCIDR := some (.bad 0) }] = [.bad 0]
  ∧ parseCIDRs [.bad 0] = .error "parsing failed" :=
  ⟨rfl, rfl, rfl⟩

/-- C6 (amended): a listing failure leaves the dynamic blacklist untouched;
a successful empty inventory installs the empty set; a successful non-empty
inventory installs the parsed first-seen-order deduplicated collection of
each node's ranges (multi-range list, single-range fallback) provided every
collected CIDR parses — when some collected CIDR fails to parse, the refresh
leaves the previous set untouched.  The collection is duplicate-free and
holds exactly the nodes' ranges. -/
theorem C6_refresh_spec (f : IPFilter) :
    (∀ e, PodCIDRProvider.refresh f (.error e) = f)
  ∧ PodCIDRProvider.refresh f (.ok []) = { f with dynamicBlacklist := [] }
  ∧ (∀ nodes nets, parseCIDRs (collectCIDRs nodes) = .ok nets →
      PodCIDRProvider.refresh f (.ok nodes) = { f with dynamicBlacklist := nets })
  ∧ (∀ nodes, (∃ c ∈ collectCIDRs nodes, parseCIDR c = none) →
      PodCIDRProvider.refresh f (.ok nodes) = f)
  ∧ (∀ nodes, (collectCIDRs nodes).Nodup ∧
      ∀ c, c ∈ collectCIDRs nodes ↔ ∃ n ∈ nodes, c ∈ nodePodCIDRs n) := by
  refine ⟨fun e => rfl, ?_, ?_, ?_, ?_⟩
  · unfold PodCIDRProvider.refresh IPFilter.SetDynamicBlacklist
    rfl
  · intro nodes nets hok
    show (IPFilter.SetDynamicBlacklist f (collectCIDRs nodes)).1 = _
    unfold IPFilter.SetDynamicBlacklist
    rw [hok]
  · intro nodes hbad
    obtain ⟨e, he⟩ := parseCIDRs_error_of_bad _ hbad
    show (IPFilter.SetDynamicBlacklist f (collectCIDRs nodes)).1 = f
    unfold IPFilter.SetDynamicBlacklist
    rw [he]
  · intro nodes
    constructor
    · exact foldl_dedup_nodup _ [] (List.nodup_nil)
    · intro c
      unfold collectCIDRs
      rw [foldl_dedup_mem]
      simp [List.mem_flatMap]

/-- C6 witness: a listing error retains the installed set; an empty
inventory clears it; two nodes sharing a range (one via the multi-range
list, one via the single-range fallback) install the deduplicated parsed
collection. -/
theorem C6_refresh_spec_witness :
    PodCIDRProvider.refresh ⟨[], [], [⟨32, 7, 32⟩]⟩ (.error "listing failed")
        = ⟨[], [], [⟨32, 7, 32⟩]⟩
  ∧ PodCIDRProvider.refresh ⟨[], [], [⟨32, 7, 32⟩]⟩ (.ok [])
        = ⟨[], [], []⟩
  ∧ PodCIDRProvider.refresh ⟨[], [], [⟨32, 7, 32⟩]⟩
        (.ok [{ podCIDRs := [.ok ⟨32, 4⟩ ⟨32, 4, 31⟩ 0, .ok ⟨32, 9⟩ ⟨32, 9, 32⟩ 1],
                podCIDR := none },
              { podCIDRs := [], podCIDR := some (.ok ⟨32, 4⟩ ⟨32, 4, 31⟩ 0) }])
        = ⟨[], [], [⟨32, 4, 31⟩, ⟨32, 9, 32⟩]⟩ := by
  have h := C6_refresh_spec ⟨[], [], [⟨32, 7, 32⟩]⟩
  exact ⟨h.1 "listing failed", h.2.1,
    h.2.2.1 [{ podCIDRs := [.ok ⟨32, 4⟩ ⟨32, 4, 31⟩ 0, .ok ⟨32, 9⟩ ⟨32, 9, 32⟩ 1],
               podCIDR := none },
             { podCIDRs := [], podCIDR := some (.ok ⟨32, 4⟩ ⟨32, 4, 31⟩ 0) }]
      [⟨32, 4, 31⟩, ⟨32, 9, 32⟩] rfl⟩

/-- Looking up the key just written yields the written value. -/
theorem lookupResolved_upsert_self (m : List (String × List CIDRString))
    (h : String) (v : List CIDRString) :
    lookupResolved (upsertResolved m h v) h = some v := by
  induction m with
  | nil => simp [upsertResolved, lookupResolved]
  | cons kw rest ih =>
    obtain ⟨k, w⟩ := kw
    by_cases hk : k = h
    · simp [upsertResolved, lookupResolved, hk]
    · simp [upsertResolved, lookupResolved, hk, ih]

/-- Writing one key leaves the other keys' lookups unchanged. -/
theorem lookupResolved_upsert_ne (m : List (String × List CIDRString))
    (h h2 : String) (v : List CIDRString) (hne : h ≠ h2) :
    lookupResolved (upsertResolved m h v) h2 = lookupResolved m h2 := by
  induction m with
  | nil => simp [upsertResolved, lookupResolved, hne]
  | cons kw rest ih =>
    obtain ⟨k, w⟩ := kw
    by_cases hk : k = h
    · subst hk
      simp [upsertResolved, lookupResolved, hne]
    · simp [upsertResolved, lookupResolved, hk, ih]

/-- The expansion each hostname contributes to a rule's peers: one `ipBlock`
peer per resolved address on success, nothing on failure. -/
def peersOf (resolver : String → Except String (List CIDRString))
    (peer : EgressPeer) : List K8sPeer :=
  match resolver peer.hostname with
  | .ok cidrs => cidrs.map (fun c => { ipBlock := some { cidr := c } })
  | .error _ => []

/-- The error message each hostname contributes on failure. -/
def errOf (resolver : String → Except String (List CIDRString))
    (peer : EgressPeer) : Option String :=
  match resolver peer.hostname with
  | .ok _ => none
  | .error e => some (resolveErrMsg peer.hostname e)

/-- The peers accumulated by the inner loop are the initial peers followed by
each hostname's expansion, in order. -/
theorem resolvePeers_peers (resolver : String → Except String (List CIDRString)) :
    ∀ (tos : List EgressPeer) (resolved : List (String × List CIDRString))
      (errors : List String) (peers : List K8sPeer),
      (resolvePeers resolver tos resolved errors peers).1 =
        peers ++ tos.flatMap (peersOf resolver) := by
  intro tos
  induction tos with
  | nil => intro resolved errors peers; simp [resolvePeers]
  | cons peer rest ih =>
    intro resolved errors peers
    unfold resolvePeers
    cases hr : resolver peer.hostname with
    | error e => simp [ih, peersOf, hr]
    | ok cidrs => simp [ih, peersOf, hr]

/-- The errors accumulated by the inner loop are the initial errors followed
by each failing hostname's message, in order. -/
theorem resolvePeers_errors (resolver : String → Except String (List CIDRString)) :
    ∀ (tos : List EgressPeer) (resolved : List (String × List CIDRString))
      (errors : List String) (peers : List K8sPeer),
      (resolvePeers resolver tos resolved errors peers).2.2 =
        errors ++ tos.filterMap (errOf resolver) := by
  intro tos
  induction tos with
  | nil => intro resolved errors peers; simp [resolvePeers]
  | cons peer rest ih =>
    intro resolved errors peers
    unfold resolvePeers
    cases hr : resolver peer.hostname with
    | error e => simp [ih, errOf, hr]
    | ok cidrs => simp [ih, errOf, hr]

/-- What the inner loop stores in `resolvedAddresses`: a hostname occurring
in the peer list with a successful resolution maps to its addresses; all
other lookups fall through to the initial map. -/
theorem resolvePeers_resolved (resolver : String → Except String (List CIDRString)) :
    ∀ (tos : List EgressPeer) (resolved : List (String × List CIDRString))
      (errors : List String) (peers : List K8sPeer) (h : String),
      lookupResolved (resolvePeers resolver tos resolved errors peers).2.1 h =
        match resolver h with
        | .ok v =>
          if tos.any (fun peer => peer.hostname == h) then some v
          else lookupResolved resolved h
        | .error _ => lookupResolved resolved h := by
  intro tos
  induction tos with
  | nil =>
    intro resolved errors peers h
    cases resolver h <;> simp [resolvePeers]
  | cons peer rest ih =>
    intro resolved errors peers h
    unfold resolvePeers
    cases hr : resolver peer.hostname with
    | error e =>
      dsimp only
      rw [ih]
      by_cases hph : peer.hostname = h
      · subst hph
        rw [hr]
      · have hbeq : (peer.hostname == h) = false := by simp [hph]
        cases hh : resolver h with
        | error e2 => rfl
        | ok v => simp [hbeq]
    | ok cidrs =>
      dsimp only
      rw [ih]
      by_cases hph : peer.hostname = h
      · subst hph
        rw [hr]
        by_cases hrest : rest.any (fun p => p.hostname == peer.hostname)
        · simp [hrest]
        · simp [hrest, lookupResolved_upsert_self]
      · have hbeq : (peer.hostname == h) = false := by simp [hph]
        cases hh : resolver h with
        | error e2 => simp [lookupResolved_upsert_ne _ _ _ _ hph]
        | ok v =>
          by_cases hrest : rest.any (fun p => p.hostname == h)
          · simp [hrest, hbeq]
          · simp [hrest, hbeq, lookupResolved_upsert_ne _ _ _ _ hph]

/-- The derived egress rules produced by the outer loop: one derived rule per
source rule, with the ports converted and the hostnames expanded. -/
theorem resolveRulesAux_egress (resolver : String → Except String (List CIDRString)) :
    ∀ (rules : List EgressRule) (resolved : List (String × List CIDRString))
      (errors : List String) (egress : List K8sEgressRule),
      (resolveRulesAux resolver rules resolved errors egress).egress =
        egress ++ rules.map (fun rule =>
          { ports := rule.ports.map convertPort,
            toPeers := rule.toPeers.flatMap (peersOf resolver) }) := by
  intro rules
  induction rules with
  | nil => intro resolved errors egress; simp [resolveRulesAux]
  | cons rule rest ih =>
    intro resolved errors egress
    unfold resolveRulesAux
    cases hp : resolvePeers resolver rule.toPeers resolved errors [] with
    | mk peers rem =>
      have hpeers : peers = rule.toPeers.flatMap (peersOf resolver) := by
        have := resolvePeers_peers resolver rule.toPeers resolved errors []
        rw [hp] at this
        simpa using this
      simp [ih, hpeers]

/-- The resolution errors collected by the outer loop, in rule order. -/
theorem resolveRulesAux_errors (resolver : String → Except String (List CIDRString)) :
    ∀ (rules : List EgressRule) (resolved : List (String × List CIDRString))
      (errors : List String) (egress : List K8sEgressRule),
      (resolveRulesAux resolver rules resolved errors egress).errors =
        errors ++ rules.flatMap (fun rule => rule.toPeers.filterMap (errOf resolver)) := by
  intro rules
  induction rules with
  | nil => intro resolved errors egress; simp [resolveRulesAux]
  | cons rule rest ih =>
    intro resolved errors egress
    unfold resolveRulesAux
    cases hp : resolvePeers resolver rule.toPeers resolved errors [] with
    | mk peers rem =>
      have herr : rem.2 = errors ++ rule.toPeers.filterMap (errOf resolver) := by
        have := resolvePeers_errors resolver rule.toPeers resolved errors []
        rw [hp] at this
        simpa using this
      simp [ih, herr]

/-- The `resolvedAddresses` map built by the outer loop, pointwise. -/
theorem resolveRulesAux_resolved (resolver : String → Except String (List CIDRString)) :
    ∀ (rules : List EgressRule) (resolved : List (String × List CIDRString))
      (errors : List String) (egress : List K8sEgressRule) (h : String),
      lookupResolved (resolveRulesAux resolver rules resolved errors egress).resolved h =
        match resolver h with
        | .ok v =>
          if rules.any (fun rule => rule.toPeers.any (fun peer => peer.hostname == h))
          then some v
          else lookupResolved resolved h
        | .error _ => lookupResolved resolved h := by
  intro rules
  induction rules with
  | nil =>
    intro resolved errors egress h
    cases resolver h <;> simp [resolveRulesAux]
  | cons rule rest ih =>
    intro resolved errors egress h
    unfold resolveRulesAux
    cases hp : resolvePeers resolver rule.toPeers resolved errors [] with
    | mk peers rem =>
      have hres : ∀ h2, lookupResolved rem.1 h2 =
          match resolver h2 with
          | .ok v =>
            if rule.toPeers.any (fun peer => peer.hostname == h2) then some v
            else lookupResolved resolved h2
          | .error _ => lookupResolved resolved h2 := by
        intro h2
        have := resolvePeers_resolved resolver rule.toPeers resolved errors [] h2
        rw [hp] at this
        simpa using this
      rw [ih]
      cases hh : resolver h with
      | error e =>
        have := hres h
        rw [hh] at this
        exact this
      | ok v =>
        by_cases hrest : rest.any (fun r => r.toPeers.any (fun peer => peer.hostname == h))
        · simp [hrest]
        · have hx := hres h
          rw [hh] at hx
          rw [hx]
          by_cases hrule : rule.toPeers.any (fun peer => peer.hostname == h)
          · simp [hrest, hrule]
          · simp [hrest, hrule]

/-- `setCondition` leaves exactly one condition of the upserted type, equal
to the new condition up to the preserved transition time. -/
theorem getCondition_setCondition (conds : List Condition) (c : Condition) :
    ∃ t, getCondition (setCondition conds c) c.type
      = some { c with lastTransitionTime := t } := by
  induction conds with
  | nil => exact ⟨c.lastTransitionTime, by simp [setCondition, getCondition]⟩
  | cons e rest ih =>
    by_cases he : e.type = c.type
    · by_cases hs : e.status ≠ c.status
      · exact ⟨c.lastTransitionTime, by simp [setCondition, getCondition, he, hs]⟩
      · exact ⟨e.lastTransitionTime, by simp [setCondition, getCondition, he, hs]⟩
    · obtain ⟨t, ht⟩ := ih
      exact ⟨t, by simp [setCondition, getCondition, he, ht]⟩

/-- C7: the synthesized derived egress rules contain, per source rule, one
address-block peer per resolved address of each successfully resolved
hostname (so two addresses yield two peers inside the same rule, sharing the
rule's converted port list); a failed or empty resolution contributes zero
peers and never drops the rule or aborts the pass (every source rule yields
exactly one derived rule); ports are copied field by field without
transformation. -/
theorem C7_rule_expansion (resolver : String → Except String (List CIDRString))
    (rules : List EgressRule) :
    ((resolveRules resolver rules).egress = rules.map (fun rule =>
        { ports := rule.ports.map convertPort,
          toPeers := rule.toPeers.flatMap (peersOf resolver) }))
  ∧ (∀ (peer : EgressPeer) (cidrs : List CIDRString),
      resolver peer.hostname = .ok cidrs →
        peersOf resolver peer = cidrs.map (fun c => { ipBlock := some { cidr := c } }))
  ∧ (∀ (peer : EgressPeer) (e : String),
      resolver peer.hostname = .error e → peersOf resolver peer = [])
  ∧ (∀ p : ANPPort, (convertPort p).protocol = p.protocol
      ∧ (convertPort p).port = p.port ∧ (convertPort p).endPort = p.endPort) := by
  refine ⟨?_, ?_, ?_, fun p => ⟨rfl, rfl, rfl⟩⟩
  · have h := resolveRulesAux_egress resolver rules [] [] []
    simpa [resolveRules] using h
  · intro peer cidrs hok
    unfold peersOf
    rw [hok]
  · intro peer e herr
    unfold peersOf
    rw [herr]

/-- C7 witness: one rule with hostnames "a" (two addresses) and "b"
(failing): the derived rule carries two `ipBlock` peers and the original
port, and "b" contributes no peers. -/
theorem C7_rule_expansion_witness :
    ((resolveRules
        (fun h => if h = "a"
          then .ok [.ok ⟨32, 1⟩ ⟨32, 1, 32⟩ 0, .ok ⟨32, 2⟩ ⟨32, 2, 32⟩ 0]
          else .error "nx")
        [{ ports := [{ protocol := some "TCP", port := some (.int 443), endPort := none }],
           toPeers := [⟨"a"⟩, ⟨"b"⟩] }]).egress
      = [{ ports := [{ protocol := some "TCP", port := some (.int 443), endPort := none }],
           toPeers := [{ ipBlock := some { cidr := .ok ⟨32, 1⟩ ⟨32, 1, 32⟩ 0 } },
                       { ipBlock := some { cidr := .ok ⟨32, 2⟩ ⟨32, 2, 32⟩ 0 } }] }])
  ∧ peersOf
      (fun h => if h = "a"
        then .ok [.ok ⟨32, 1⟩ ⟨32, 1, 32⟩ 0, .ok ⟨32, 2⟩ ⟨32, 2, 32⟩ 0]
        else .error "nx") ⟨"b"⟩ = [] := by
  have h := C7_rule_expansion
    (fun h => if h = "a"
      then .ok [.ok ⟨32, 1⟩ ⟨32, 1, 32⟩ 0, .ok ⟨32, 2⟩ ⟨32, 2, 32⟩ 0]
      else .error "nx")
    [{ ports := [{ protocol := some "TCP", port := some (.int 443), endPort := none }],
       toPeers := [⟨"a"⟩, ⟨"b"⟩] }]
  constructor
  · rw [h.1]
    rfl
  · exact h.2.2.1 ⟨"b"⟩ "nx" rfl

/-- C8: after the status update, the `resolvedAddresses` map is wholly
replaced by this pass's map, whose entries are exactly the hostnames that
occur in some rule and resolved successfully; the Ready condition exists and
is False with reason "ResolutionFailed" and a message enumerating the
failures iff at least one resolution failed, else True with reason
"Reconciled". -/
theorem C8_status_update (status : NPStatus) (generation now : Nat)
    (resolver : String → Except String (List CIDRString)) (rules : List EgressRule) :
    ((updateStatus status generation now (resolveRules resolver rules).resolved
        (resolveRules resolver rules).errors).resolvedAddresses
      = (resolveRules resolver rules).resolved)
  ∧ (∀ (h : String) (v : List CIDRString),
      lookupResolved (resolveRules resolver rules).resolved h = some v ↔
        ((∃ rule ∈ rules, ∃ peer ∈ rule.toPeers, peer.hostname = h)
          ∧ resolver h = .ok v))
  ∧ ((resolveRules resolver rules).errors = [] ↔
      ∀ rule ∈ rules, ∀ peer ∈ rule.toPeers, ∀ e, resolver peer.hostname ≠ .error e)
  ∧ (∃ c, getCondition (updateStatus status generation now
        (resolveRules resolver rules).resolved
        (resolveRules resolver rules).errors).conditions "Ready" = some c
      ∧ ((resolveRules resolver rules).errors ≠ [] →
          c.status = false ∧ c.reason = "ResolutionFailed"
          ∧ c.message = resolutionFailedMsg (resolveRules resolver rules).errors)
      ∧ ((resolveRules resolver rules).errors = [] →
          c.status = true ∧ c.reason = "Reconciled")) := by
  have hlook : ∀ h : String,
      lookupResolved (resolveRules resolver rules).resolved h =
        match resolver h with
        | .ok v =>
          if rules.any (fun rule => rule.toPeers.any (fun peer => peer.hostname == h))
          then some v
          else none
        | .error _ => none := by
    intro h
    have := resolveRulesAux_resolved resolver rules [] [] [] h
    simpa [resolveRules, lookupResolved] using this
  have herrs : (resolveRules resolver rules).errors =
      rules.flatMap (fun rule => rule.toPeers.filterMap (errOf resolver)) := by
    have := resolveRulesAux_errors resolver rules [] [] []
    simpa [resolveRules] using this
  refine ⟨rfl, ?_, ?_, ?_⟩
  · intro h v
    rw [hlook h]
    constructor
    · intro heq
      cases hres : resolver h with
      | error e => rw [hres] at heq; cases heq
      | ok w =>
        rw [hres] at heq
        dsimp only at heq
        by_cases hany : (rules.any (fun rule => rule.toPeers.any (fun peer => peer.hostname == h))) = true
        · rw [if_pos hany] at heq
          obtain ⟨rule, hrule, hany2⟩ := List.any_eq_true.1 hany
          obtain ⟨peer, hpeer, hbeq⟩ := List.any_eq_true.1 hany2
          refine ⟨⟨rule, hrule, peer, hpeer, by simpa using hbeq⟩, ?_⟩
          cases heq
          rfl
        · rw [if_neg hany] at heq; cases heq
    · rintro ⟨⟨rule, hrule, peer, hpeer, hname⟩, hres⟩
      rw [hres]
      dsimp only
      have hany : rules.any (fun rule => rule.toPeers.any (fun peer => peer.hostname == h)) = true :=
        List.any_eq_true.2 ⟨rule, hrule,
          List.any_eq_true.2 ⟨peer, hpeer, by simp [hname]⟩⟩
      rw [if_pos hany]
  · rw [herrs]
    constructor
    · intro hnil rule hrule peer hpeer e habs
      have hmem : resolveErrMsg peer.hostname e ∈
          rules.flatMap (fun rule => rule.toPeers.filterMap (errOf resolver)) :=
        List.mem_flatMap.2 ⟨rule, hrule,
          List.mem_filterMap.2 ⟨peer, hpeer, by simp [errOf, habs]⟩⟩
      rw [hnil] at hmem
      simp at hmem
    · intro hall
      rw [List.eq_nil_iff_forall_not_mem]
      intro msg hmsg
      obtain ⟨rule, hrule, hmem⟩ := List.mem_flatMap.1 hmsg
      obtain ⟨peer, hpeer, heq⟩ := List.mem_filterMap.1 hmem
      unfold errOf at heq
      cases hres : resolver peer.hostname with
      | ok v => rw [hres] at heq; cases heq
      | error e => exact hall rule hrule peer hpeer e hres
  · cases herr : (resolveRules resolver rules).errors with
    | nil =>
      obtain ⟨t, ht⟩ := getCondition_setCondition status.conditions
        { type := "Ready", status := true, reason := "Reconciled",
          message := "All hostnames resolved successfully",
          observedGeneration := generation, lastTransitionTime := now }
      exact ⟨{ type := "Ready", status := true, reason := "Reconciled",
               message := "All hostnames resolved successfully",
               observedGeneration := generation, lastTransitionTime := t },
        ht, fun hne => absurd rfl hne, fun _ => ⟨rfl, rfl⟩⟩
    | cons m rest =>
      obtain ⟨t, ht⟩ := getCondition_setCondition status.conditions
        { type := "Ready", status := false, reason := "ResolutionFailed",
          message := resolutionFailedMsg (m :: rest),
          observedGeneration := generation, lastTransitionTime := now }
      refine ⟨{ type := "Ready", status := false, reason := "ResolutionFailed",
                message := resolutionFailedMsg (m :: rest),
                observedGeneration := generation, lastTransitionTime := t },
        ?_, fun _ => ⟨rfl, rfl, rfl⟩, fun hnil => absurd hnil (List.cons_ne_nil m rest)⟩
      have hred : (updateStatus status generation now
          (resolveRules resolver rules).resolved (m :: rest)).conditions
        = setCondition status.conditions
            { type := "Ready", status := false, reason := "ResolutionFailed",
              message := resolutionFailedMsg (m :: rest),
              observedGeneration := generation, lastTransitionTime := now } := by
        unfold updateStatus
        simp
      rw [hred]
      exact ht

/-- C8 witness: with hostname "a" resolving and "b" failing, the resolved
map holds exactly "a", the error list is non-empty, and the Ready condition
is False with reason ResolutionFailed. -/
theorem C8_status_update_witness :
    lookupResolved (resolveRules
        (fun h => if h = "a" then .ok [.ok ⟨32, 1⟩ ⟨32, 1, 32⟩ 0] else .error "nx")
        [{ ports := [], toPeers := [⟨"a"⟩, ⟨"b"⟩] }]).resolved "a"
      = some [.ok ⟨32, 1⟩ ⟨32, 1, 32⟩ 0]
  ∧ ∃ c, getCondition (updateStatus ⟨[], []⟩ 1 2
        (resolveRules
          (fun h => if h = "a" then .ok [.ok ⟨32, 1⟩ ⟨32, 1, 32⟩ 0] else .error "nx")
          [{ ports := [], toPeers := [⟨"a"⟩, ⟨"b"⟩] }]).resolved
        (resolveRules
          (fun h => if h = "a" then .ok [.ok ⟨32, 1⟩ ⟨32, 1, 32⟩ 0] else .error "nx")
          [{ ports := [], toPeers := [⟨"a"⟩, ⟨"b"⟩] }]).errors).conditions "Ready"
      = some c ∧ c.status = false ∧ c.reason = "ResolutionFailed" := by
  have h := C8_status_update ⟨[], []⟩ 1 2
    (fun h => if h = "a" then .ok [.ok ⟨32, 1⟩ ⟨32, 1, 32⟩ 0] else .error "nx")
    [{ ports := [], toPeers := [⟨"a"⟩, ⟨"b"⟩] }]
  constructor
  · exact (h.2.1 "a" [.ok ⟨32, 1⟩ ⟨32, 1, 32⟩ 0]).2
      ⟨⟨{ ports := [], toPeers := [⟨"a"⟩, ⟨"b"⟩] }, by simp, ⟨"a"⟩, by simp, rfl⟩, rfl⟩
  · obtain ⟨c, hc, hfail, -⟩ := h.2.2.2
    have hne : (resolveRules
        (fun h => if h = "a" then .ok [.ok ⟨32, 1⟩ ⟨32, 1, 32⟩ 0] else .error "nx")
        [{ ports := [], toPeers := [⟨"a"⟩, ⟨"b"⟩] }]).errors ≠ [] := by
      intro habs
      have := (h.2.2.1.1 habs) { ports := [], toPeers := [⟨"a"⟩, ⟨"b"⟩] }
        (by simp) ⟨"b"⟩ (by simp) "nx"
      exact this rfl
    obtain ⟨hs, hr, -⟩ := hfail hne
    exact ⟨c, hc, hs, hr⟩

/-- C9: reconciliation is idempotent: with unchanged source spec and
resolver output, the second consecutive create-or-update pass performs no
create and no update, because the synthesized desired spec is structurally
identical to the derived object stored by the first pass. -/
theorem C9_reconcile_idempotent (anp : ANPSpec)
    (resolver : String → Except String (List CIDRString))
    (existing0 : Option K8sSpec) :
    (applyDerived (applyDerived existing0 (desiredSpec anp resolver)).stored
        (desiredSpec anp resolver)).created = false
  ∧ (applyDerived (applyDerived existing0 (desiredSpec anp resolver)).stored
        (desiredSpec anp resolver)).updated = false := by
  cases existing0 with
  | none => simp [applyDerived]
  | some ex =>
    by_cases hex : ex = desiredSpec anp resolver
    · simp [applyDerived, hex]
    · simp [applyDerived, hex]

end ANPO
